import Mathlib

set_option maxRecDepth 10000

/-!
Verification of the pilot HTTP server engine (Go), shallowly embedded in Lean.

Conventions of the embedding:
* Go strings and byte slices are `List Char` (the engine only compares raw
  bytes, so `Char` stands in for `byte`).
* Go operations that can panic (out-of-range slicing, `make` with a negative
  length, indexing past the end) are modelled with `GoRes`, whose `crash`
  constructor marks a Go runtime panic.
* Go maps are association lists with overwrite-on-insert (`mapInsert`) and
  zero-value-on-miss lookup, matching Go map semantics for the string maps
  used by the engine.
* A TCP connection is the finite list of bytes it will ever deliver; reading
  past the end observes EOF (a read of 0 bytes).
-/

namespace Pilot

/-- Result of running a piece of Go code: either a value or a runtime panic. -/
inductive GoRes (α : Type) where
  | ok (a : α)
  | crash
deriving DecidableEq, Repr

/-- Sequencing of Go computations: a panic propagates. -/
def GoRes.bindG : GoRes α → (α → GoRes β) → GoRes β
  | .crash, _ => .crash
  | .ok a, f => f a

/-- Go string/slice expression `s[start:stop]`: panics unless
`start ≤ stop ≤ len s`. -/
def goSlice (s : List Char) (start stop : Nat) : GoRes (List Char) :=
  if start ≤ stop ∧ stop ≤ s.length then .ok ((s.drop start).take (stop - start))
  else .crash

/-- In-bounds slice `s[start:stop]` (used where the Go code provably cannot
panic, namely inside the `PathListFromString` scan loop). -/
def sliceIn (s : List Char) (start stop : Nat) : List Char :=
  (s.drop start).take (stop - start)

/-- Go map assignment `m[k] = v`: overwrite the existing entry or append. -/
def mapInsert {V : Type} (m : List (List Char × V)) (k : List Char) (v : V) :
    List (List Char × V) :=
  match m with
  | [] => [(k, v)]
  | (k', v') :: rest =>
    if k' = k then (k, v) :: rest else (k', v') :: mapInsert rest k v

/-- Go map read `m[k]` returning an `Option`. -/
def mapGet {V : Type} (m : List (List Char × V)) (k : List Char) : Option V :=
  match m with
  | [] => none
  | (k', v') :: rest => if k' = k then some v' else mapGet rest k

/-- The scan loop of `PathListFromString` (src/app_util.go): walks `path`
from index `e`, splitting at each `'/'`. The loop is driven structurally by
`suf`, the suffix `path.drop e` still to be scanned (`path[end] == '/'` reads
the head of `suf`); it returns the accumulated components and the final
`start` index. -/
def pathLoop (path : List Char) : List Char → Nat → Nat → List (List Char) →
    List (List Char) × Nat
  | [], _, start, route => (route, start)
  | c :: suf, e, start, route =>
    if c = '/' then pathLoop path suf (e + 1) (e + 1) (route ++ [sliceIn path start e])
    else pathLoop path suf (e + 1) start route

/-- `PathListFromString` (src/app_util.go lines 29-44): splits a URL path on
`'/'`, starting the scan at index 1. The final `append(route, path[start:end])`
slices `path[start:len(path)]`, which panics when `start > len(path)` — that
happens exactly when `path` is empty (`start = 1 > 0`). -/
def PathListFromString (path : List Char) : GoRes (List (List Char)) :=
  let r := pathLoop path (path.drop 1) 1 1 []
  if r.2 ≠ path.length ∨ r.2 = 1 then
    match goSlice path r.2 path.length with
    | .ok seg => .ok (r.1 ++ [seg])
    | .crash => .crash
  else
    .ok r.1

/-- A parsed HTTP request (src/app_response.go `HttpRequest`), dropping the
fields irrelevant to parsing (`IpAddress`, the lazy query-map cache). A `none`
body corresponds to Go's nil `[]byte`. -/
structure HttpRequest where
  path : List Char
  queryString : List Char
  method : List Char
  body : Option (List Char)
  headers : List (List Char × List Char)
deriving DecidableEq, Repr

/-- An HTTP response (src/app_response.go `HttpResponse`). The streaming
`Writer`/`WriterSize` fields are omitted: no claim exercises streaming. -/
structure HttpResponse where
  statusCode : Int
  headers : List (List Char × List Char)
  body : List Char
deriving DecidableEq, Repr

/-- A route handler binding (src/app_router.go `RouteHandler`): the handler
function plus its ordered middleware list, each a function of the request. -/
structure RouteHandlerB where
  handler : HttpRequest → Option HttpResponse
  middleware : List (HttpRequest → Option HttpResponse)

/-- A node of the routing trie (src/app_router.go `Route`). -/
inductive Route where
  | mk (pathComponent : List Char)
       (handlers : List (List Char × RouteHandlerB))
       (children : List Route)

def Route.pathComponent : Route → List Char
  | .mk p _ _ => p

def Route.handlers : Route → List (List Char × RouteHandlerB)
  | .mk _ h _ => h

def Route.children : Route → List Route
  | .mk _ _ c => c

/-- `NewEmptyRoute` (src/app_router.go). -/
def NewEmptyRoute (c : List Char) : Route := .mk c [] []

/-- The descent loop of `FindPath` with `create=false`
(src/app_router.go lines 121-139): at each depth pick the first child whose
`PathComponent` equals the component literally; no match returns nil. -/
def findNode : List (List Char) → Route → Option Route
  | [], node => some node
  | c :: rest, node =>
    match node.children.find? (fun ch => ch.pathComponent = c) with
    | some ch => findNode rest ch
    | none => none

/-- `FindPath(path, create=false)` (src/app_router.go lines 103-141):
split the path, match `comps[0]` against the top-level routes, then descend.
`comps[0]` on an empty component list would panic (unreachable for non-crash
splits, kept for faithfulness). -/
def FindPath (routes : List Route) (path : List Char) : GoRes (Option Route) :=
  match PathListFromString path with
  | .crash => .crash
  | .ok [] => .crash
  | .ok (c0 :: rest) =>
    match routes.find? (fun r => r.pathComponent = c0) with
    | some node => .ok (findNode rest node)
    | none => .ok none

/-- Find-or-append semantics of the Go node search in `FindPath(create=true)`:
apply `f` to the first node whose `PathComponent` matches `c`, else append a
fresh node (`NewEmptyRoute`) and apply `f` to it. -/
def updateChildList (rs : List Route) (c : List Char) (f : Route → Route) :
    List Route :=
  match rs with
  | [] => [f (NewEmptyRoute c)]
  | r :: rs' =>
    if r.pathComponent = c then f r :: rs'
    else r :: updateChildList rs' c f

/-- `FindPath(create=true)` combined with the `Handlers[method] = handler`
assignment done by `AddRoute`: walk/create nodes for `comps`, then bind the
handler at the terminal node. -/
def setHandlerAt (m : List Char) (h : RouteHandlerB) :
    List (List Char) → Route → Route
  | [], .mk p hs cs => .mk p (mapInsert hs m h) cs
  | c :: rest, .mk p hs cs => .mk p hs (updateChildList cs c (setHandlerAt m h rest))

/-- `AddRoute` (src/app_router.go lines 160-165): `FindPath(path, true)` then
`Handlers[method] = handler`. The top-level `Routes` list uses the same
find-or-append discipline as child lists. -/
def AddRoute (routes : List Route) (method : List Char) (path : List Char)
    (h : RouteHandlerB) : GoRes (List Route) :=
  match PathListFromString path with
  | .crash => .crash
  | .ok [] => .crash
  | .ok (c0 :: rest) => .ok (updateChildList routes c0 (setHandlerAt method h rest))

/-- String literal to byte list. -/
def str (s : String) : List Char := s.data

/-- A trivial handler used to register routes in concrete scenarios. -/
def trivialHandler : RouteHandlerB :=
  ⟨fun _ => some ⟨200, [], []⟩, []⟩

/-! ### The request parser (src/app_response.go `ParseRequest`) -/

/-- `bufio.Reader.ReadBytes(delim)` over a connection that will deliver `s`
then EOF: returns the bytes up to and including the first `delim` and the
rest of the stream, or `none` (the error case) when the stream ends first. -/
def readBytes (delim : Char) : List Char → Option (List Char × List Char)
  | [] => none
  | c :: rest =>
    if c = delim then some ([c], rest)
    else (readBytes delim rest).map (fun p => (c :: p.1, p.2))

/-- The `HttpMethods` map (src/app_methods.go lines 42-52) applied to a token:
each of the seven method strings maps to itself; Go map lookup of any other
token yields the zero value `""`. -/
def httpMethodsLookup (tok : List Char) : List Char :=
  if tok = str "GET" ∨ tok = str "POST" ∨ tok = str "PUT" ∨ tok = str "PATCH" ∨
     tok = str "DELETE" ∨ tok = str "OPTIONS" ∨ tok = str "NONE" then tok
  else []

/-- `strings.Split(s, ":")`: the list of maximal `':'`-free pieces of `s`
(always non-empty). -/
def splitOnColon : List Char → List (List Char)
  | [] => [[]]
  | c :: rest =>
    if c = ':' then [] :: splitOnColon rest
    else
      match splitOnColon rest with
      | [] => [[c]]
      | p :: ps => (c :: p) :: ps

/-- Digit-string value: `some n` iff the list is non-empty and all digits. -/
def digitsToNat? : List Char → Option Nat
  | [] => none
  | [c] => if '0' ≤ c ∧ c ≤ '9' then some (c.toNat - 48) else none
  | c :: rest =>
    if '0' ≤ c ∧ c ≤ '9' then
      (digitsToNat? rest).map (fun n => (c.toNat - 48) * 10 ^ rest.length + n)
    else none

/-- `strconv.Atoi` with its error discarded, as the Go code does
(`bodyLength, _ := strconv.Atoi(...)`): an optional sign followed by digits;
any syntax error yields 0. -/
def atoiGo (s : List Char) : Int :=
  match s with
  | [] => 0
  | c :: rest =>
    if c = '-' then
      match digitsToNat? rest with
      | some n => -(n : Int)
      | none => 0
    else if c = '+' then
      match digitsToNat? rest with
      | some n => (n : Int)
      | none => 0
    else
      match digitsToNat? (c :: rest) with
      | some n => (n : Int)
      | none => 0

/-- One possible outcome of the header loop: parse failure (`ok none`),
panic (`crash`), or the header map plus the unconsumed stream. -/
abbrev HeadersOut := GoRes (Option (List (List Char × List Char) × List Char))

/-- The header loop of `ParseRequest` (src/app_response.go lines 420-435),
driven by `fuel` (one unit per header line; the wrapper passes `len + 1`,
which is ample since every line consumes at least one byte):
read a line up to `'\n'`; a leading `'\r'` ends the headers, a leading `'\n'`
is skipped; otherwise drop the final `"\r\n"` (`header[0:len-2]`, a panic if
the line has one byte), `strings.Split` on `':'`, store
`Headers[split[0]] = split[1][1:]`. `split[1]` panics when the line has no
colon; `split[1][1:]` panics when the text after the first colon is empty. -/
def parseHeadersF (hdrs : List (List Char × List Char)) :
    Nat → List Char → HeadersOut
  | 0, _ => .crash
  | fuel + 1, s =>
    match readBytes '\n' s with
    | none => .ok none
    | some (bytes, rest) =>
      match bytes with
      | [] => .crash
      | b :: _ =>
        if b = '\r' then .ok (some (hdrs, rest))
        else if b = '\n' then parseHeadersF hdrs fuel rest
        else
          match goSlice bytes 0 (bytes.length - 2) with
          | .crash => .crash
          | .ok header =>
            match splitOnColon header with
            | [] => .crash
            | [_] => .crash
            | k :: v :: _ =>
              match v with
              | [] => .crash
              | _ :: vtail => parseHeadersF (mapInsert hdrs k vtail) fuel rest

/-- `strings.Index(path, "?")` split: on a hit, `QueryString = path[i+1:]`
and `Path = path[0:i]`. -/
def splitQuery (p : List Char) : List Char × List Char :=
  match p.findIdx? (· = '?') with
  | some i => (p.take i, p.drop (i + 1))
  | none => (p, [])

/-- `ParseRequest` (src/app_response.go lines 388-449) over the byte stream a
connection will deliver. `ok none` is Go's nil return; `crash` is a Go panic.
Steps: method token to the first `' '` (unknown tokens map to `""`), path
token to the next `' '`, skip the rest of the request line to `'\n'`, split
off the query string at `'?'`, run the header loop, then read exactly
`Content-Length` bytes of body when that header is non-empty
(`make([]byte, n)` panics for negative `n`; `io.ReadFull` fails the parse
when fewer bytes remain). -/
def ParseRequest (input : List Char) : GoRes (Option HttpRequest) :=
  match readBytes ' ' input with
  | none => .ok none
  | some (tok, s1) =>
    let method := httpMethodsLookup tok.dropLast
    match readBytes ' ' s1 with
    | none => .ok none
    | some (tok2, s2) =>
      let path0 := tok2.dropLast
      match readBytes '\n' s2 with
      | none => .ok none
      | some (_, s3) =>
        let pq := splitQuery path0
        match parseHeadersF [] (s3.length + 1) s3 with
        | .crash => .crash
        | .ok none => .ok none
        | .ok (some (hdrs, s4)) =>
          let clv := (mapGet hdrs (str "Content-Length")).getD []
          if clv = [] then .ok (some ⟨pq.1, pq.2, method, none, hdrs⟩)
          else
            let bodyLength := atoiGo clv
            if bodyLength < 0 then .crash
            else if s4.length < bodyLength.toNat then .ok none
            else .ok (some ⟨pq.1, pq.2, method, some (s4.take bodyLength.toNat), hdrs⟩)

/-! ### Responses and per-request dispatch (src/app.go, src/app_response.go) -/

/-- `StringResponse` (src/app_response.go lines 47-53): status 200 (`StatusOK`),
`Content-Type: text/plain`, the given body. -/
def StringResponse (body : List Char) : HttpResponse :=
  ⟨200, [(str "Content-Type", str "text/plain")], body⟩

/-- The CORS configuration strings of an `Application`. -/
structure CorsCfg where
  origin : List Char
  headers : List Char
  methods : List Char
deriving DecidableEq, Repr

/-- `ApplyCors` (src/app_response.go lines 176-180): set the three
`Access-Control-Allow-*` headers in order. -/
def ApplyCors (cfg : CorsCfg) (r : HttpResponse) : HttpResponse :=
  { r with
    headers :=
      mapInsert
        (mapInsert
          (mapInsert r.headers (str "Access-Control-Allow-Origin") cfg.origin)
          (str "Access-Control-Allow-Headers") cfg.headers)
        (str "Access-Control-Allow-Methods") cfg.methods }

/-- What a worker did with one request: the response written (if any — `none`
means the connection was closed with nothing written), how many middleware
functions were invoked, and whether the bound handler was invoked. -/
structure DispatchResult where
  response : Option HttpResponse
  middlewareRan : Nat
  handlerRan : Bool
deriving DecidableEq, Repr

/-- The middleware loop of `handleRequest` (src/app.go lines 403-411): invoke
each middleware in order; the first non-nil response stops the loop. Returns
the number of middleware invoked and the short-circuiting response, if any. -/
def runMw (req : HttpRequest) :
    List (HttpRequest → Option HttpResponse) → Nat × Option HttpResponse
  | [] => (0, none)
  | mw :: rest =>
    match mw req with
    | some r => (1, some r)
    | none =>
      let p := runMw req rest
      (p.1 + 1, p.2)

/-- The middleware-and-handler stage of `handleRequest`
(src/app.go lines 403-419): a non-nil middleware response is CORS-decorated
and written; otherwise the handler runs, a nil handler result is replaced by
`StringResponse("500 Internal Server Error")`, and the result is
CORS-decorated and written. -/
def runChain (cfg : CorsCfg) (h : RouteHandlerB) (req : HttpRequest) :
    DispatchResult :=
  match runMw req h.middleware with
  | (n, some r) => ⟨some (ApplyCors cfg r), n, false⟩
  | (n, none) =>
    match h.handler req with
    | none => ⟨some (ApplyCors cfg (StringResponse (str "500 Internal Server Error"))), n, true⟩
    | some r => ⟨some (ApplyCors cfg r), n, true⟩

/-- The per-request body of `handleRequest` after a successful parse
(src/app.go lines 357-420): an `OPTIONS` method short-circuits to the canned
CORS-preflight response (status 200, exactly the three CORS headers, empty
body) before the router is consulted; otherwise the canned 404
(`StringResponse("")` with body `"404 not found"`, status 404, CORS applied)
is written when `FindPath` returns nil or no handler is bound for the method;
otherwise the middleware/handler chain runs. -/
def handleParsed (cfg : CorsCfg) (routes : List Route) (req : HttpRequest) :
    GoRes DispatchResult :=
  if req.method = str "OPTIONS" then
    .ok ⟨some ⟨200,
      [(str "Access-Control-Allow-Origin", cfg.origin),
       (str "Access-Control-Allow-Headers", cfg.headers),
       (str "Access-Control-Allow-Methods", cfg.methods)], []⟩, 0, false⟩
  else
    let notFound := ApplyCors cfg { StringResponse [] with body := str "404 not found", statusCode := 404 }
    match FindPath routes req.path with
    | .crash => .crash
    | .ok none => .ok ⟨some notFound, 0, false⟩
    | .ok (some route) =>
      match mapGet route.handlers req.method with
      | none => .ok ⟨some notFound, 0, false⟩
      | some h => .ok (runChain cfg h req)

/-- One full worker iteration for one connection (src/app.go lines 342-421):
parse, close with nothing written on a nil parse, else dispatch. -/
def handleConn (cfg : CorsCfg) (routes : List Route) (input : List Char) :
    GoRes DispatchResult :=
  match ParseRequest input with
  | .crash => .crash
  | .ok none => .ok ⟨none, 0, false⟩
  | .ok (some req) => handleParsed cfg routes req

/-- The default CORS configuration of `NewApplication` (src/app.go). -/
def defaultCors : CorsCfg :=
  ⟨str "*", str "*", str "GET, PUT, POST, DELETE, HEAD, PATCH"⟩

/-! ### The socket byte buffer (src/app_buffer.go `HttpBuf`) -/

/-- `BUFFER_SIZE` (src/app_buffer.go line 7). -/
def BUFFER_SIZE : Nat := 1024

/-- `HttpBuf` (src/app_buffer.go lines 9-12): the buffered bytes plus the
connection, modelled as the bytes it will still deliver before EOF. -/
structure HttpBuf where
  buffer : List Char
  stream : List Char
deriving DecidableEq, Repr

/-- `BufferIn` (src/app_buffer.go lines 18-23): `next_read` is a fresh
zeroed 1024-byte slice; `conn.Read` fills its first `size` bytes
(`size = min 1024 remaining`); the code then appends the WHOLE `next_read`
slice — zero padding included — to the buffer, and returns `size`. -/
def BufferIn (st : HttpBuf) : HttpBuf × Nat :=
  let size := min BUFFER_SIZE st.stream.length
  let next_read := st.stream.take size ++ List.replicate (BUFFER_SIZE - size) (Char.ofNat 0)
  (⟨st.buffer ++ next_read, st.stream.drop size⟩, size)

/-- The refill loop of `ReadExact` (src/app_buffer.go lines 180-185), driven
by `fuel` (one unit per refill; the wrapper passes `stream.length + 1`, ample
since every non-final refill consumes at least one stream byte): refill until
`len(buffer) ≥ count` or a refill returns 0. -/
def readExactLoop (count : Nat) : Nat → HttpBuf → HttpBuf
  | 0, st => st
  | fuel + 1, st =>
    if st.buffer.length < count then
      let p := BufferIn st
      if p.2 = 0 then p.1 else readExactLoop count fuel p.1
    else st

/-- `ReadExact` (src/app_buffer.go lines 179-187): refill as above, then
return `buf.buffer[:count]` — a slice of exactly `count` bytes, which panics
when `count` still exceeds the buffered length (Go: bounds beyond the
capacity of the appended slice). -/
def ReadExact (st : HttpBuf) (count : Nat) : GoRes (List Char × HttpBuf) :=
  let st' := readExactLoop count (st.stream.length + 1) st
  if count ≤ st'.buffer.length then .ok (st'.buffer.take count, st')
  else .crash

/-! ### Concrete and parameterised request scenarios used by the claims -/

/-- A handler whose function returns nil and that has no middleware. -/
def nilHandler : RouteHandlerB := ⟨fun _ => none, []⟩

/-- A parsed `GET /x` request. -/
def reqGetX : HttpRequest := ⟨str "/x", [], str "GET", none, []⟩

/-- A request whose method token was not in the closed method set:
`<m> / HTTP/1.1` with empty headers. -/
def c3Input (m : List Char) : List Char := m ++ str " / HTTP/1.1\r\n\r\n"

/-- A `GET /` request with two header lines carrying the same key. -/
def c4TwoLines (k v₁ v₂ : List Char) : List Char :=
  str "GET / HTTP/1.1\r\n" ++
    (k ++ str ": " ++ v₁ ++ str "\r\n") ++
    (k ++ str ": " ++ v₂ ++ str "\r\n") ++ str "\r\n"

/-- A `GET /` request with one header line whose value contains a colon. -/
def c4ColonLine (k a b : List Char) : List Char :=
  str "GET / HTTP/1.1\r\n" ++ (k ++ str ": " ++ a ++ [':'] ++ b ++ str "\r\n") ++ str "\r\n"

/-- A `POST /x` request claiming `Content-Length: <s>` followed by `body`. -/
def c6Input (s body : List Char) : List Char :=
  str "POST /x HTTP/1.1\r\nContent-Length: " ++ s ++ str "\r\n\r\n" ++ body

/-! ## Claim theorems -/

/-- C1 (code_bug): the roadmap of the claim — and of `FindPath`'s own doc
comment — is that a registered `:id` segment matches any literal segment.
The code does only literal comparison: after registering `GET /users/:id`,
resolving `/users/42` with `create=false` returns nil (no route), while the
literal path `/users/:id` does resolve. -/
theorem c1_param_segment_never_matches :
    (AddRoute [] (str "GET") (str "/users/:id") trivialHandler).bindG
      (fun rs => FindPath rs (str "/users/42")) = .ok none ∧
    (AddRoute [] (str "GET") (str "/users/:id") trivialHandler).bindG
      (fun rs => (FindPath rs (str "/users/:id")).bindG (fun o => .ok o.isSome)) =
      .ok true :=
  ⟨rfl, rfl⟩

/-- C2 (code_bug): when every middleware passes and the bound handler returns
nil, the worker substitutes `StringResponse("500 Internal Server Error")` —
but `StringResponse` sets `StatusOK`, so the response actually written has
status code 200 (with the CORS headers applied), not 500 as the claim (and
the code's own log line "sending 500") state. -/
theorem c2_nil_handler_writes_status_200 :
    (AddRoute [] (str "GET") (str "/x") nilHandler).bindG
      (fun rs => handleParsed defaultCors rs reqGetX) =
      .ok ⟨some (ApplyCors defaultCors (StringResponse (str "500 Internal Server Error"))),
           0, true⟩ ∧
    (ApplyCors defaultCors (StringResponse (str "500 Internal Server Error"))).statusCode
      = 200 ∧
    (ApplyCors defaultCors (StringResponse (str "500 Internal Server Error"))).body
      = str "500 Internal Server Error" :=
  ⟨rfl, rfl, rfl⟩

/-- C10 (code_bug): the request-handling path is not total. A negative
`Content-Length` reaches `make([]byte, n)` with `n < 0` (panic); a header
line without a colon indexes `split[1]` out of range (panic); an empty
parsed path makes `PathListFromString` slice `path[1:0-length]` out of range
inside route resolution (panic). -/
theorem c10_request_handling_panics :
    ParseRequest (str "GET /x HTTP/1.1\r\nContent-Length: -1\r\n\r\n") = .crash ∧
    ParseRequest (str "GET /x HTTP/1.1\r\nFoo\r\n\r\n") = .crash ∧
    handleConn defaultCors [] (str "GET  HTTP/1.1\r\n\r\n") = .crash :=
  ⟨by decide, by decide, rfl⟩

/-- C5 (counterexample): with nothing buffered and a connection that yields
0 on the first refill, `ReadExact(3)` does not return the 0 available bytes
as a short read — it returns 3 bytes (zero padding appended by `BufferIn`). -/
theorem c5_counterexample_not_short :
    ReadExact ⟨[], []⟩ 3 =
      .ok (List.replicate 3 (Char.ofNat 0),
           ⟨List.replicate 1024 (Char.ofNat 0), []⟩) ∧
    (List.replicate 3 (Char.ofNat 0)).length = 3 :=
  ⟨rfl, rfl⟩

/-- C5 (amended): `ReadExact(n)` busy-refills until at least `n` bytes are
buffered or a refill returns 0, but whenever it returns it returns exactly
`n` bytes — the first `n` bytes of the final buffer, which may include zero
padding `BufferIn` appended beyond the bytes actually read — never a short
read; if even the padded buffer is shorter than `n` the slice panics. -/
theorem c5_read_exact_never_short (st : HttpBuf) (count : Nat)
    (res : List Char) (st' : HttpBuf)
    (h : ReadExact st count = .ok (res, st')) :
    res.length = count ∧ res = st'.buffer.take count := by
  unfold ReadExact at h
  dsimp only at h
  split at h
  case isTrue hc =>
    rw [GoRes.ok.injEq, Prod.mk.injEq] at h
    obtain ⟨h1, h2⟩ := h
    subst h2
    refine ⟨?_, h1.symm⟩
    rw [← h1, List.length_take]
    omega
  case isFalse => exact absurd h (by simp)

/-- Witness for `c5_read_exact_never_short` at the empty connection. -/
theorem c5_read_exact_never_short_witness :
    (List.replicate 3 (Char.ofNat 0)).length = 3 ∧
    List.replicate 3 (Char.ofNat 0) =
      (HttpBuf.mk (List.replicate 1024 (Char.ofNat 0)) []).buffer.take 3 :=
  c5_read_exact_never_short ⟨[], []⟩ 3 _ _ rfl

/-- C9 (confirmed): a parsed request whose method is `OPTIONS` short-circuits
to the canned CORS-preflight response — status 200, exactly the three
configured `Access-Control-Allow-*` headers, empty body — before the router
is consulted: the result is identical for any two route tables, and no
middleware or handler is invoked. -/
theorem c9_options_short_circuits (cfg : CorsCfg) (routes routes' : List Route)
    (req : HttpRequest) (hm : req.method = str "OPTIONS") :
    handleParsed cfg routes req =
      .ok ⟨some ⟨200, [(str "Access-Control-Allow-Origin", cfg.origin),
                       (str "Access-Control-Allow-Headers", cfg.headers),
                       (str "Access-Control-Allow-Methods", cfg.methods)], []⟩,
           0, false⟩ ∧
    handleParsed cfg routes req = handleParsed cfg routes' req := by
  unfold handleParsed
  rw [if_pos hm]
  exact ⟨rfl, by rw [if_pos hm]⟩

/-- Scanning for a delimiter that does not occur in the first part of an
append skips over that part. -/
theorem readBytes_cons (d c : Char) (l : List Char) :
    readBytes d (c :: l) =
      if c = d then some ([c], l)
      else (readBytes d l).map (fun p => (c :: p.1, p.2)) := rfl

theorem readBytes_append_not_mem (d : Char) (xs ys : List Char) (h : d ∉ xs) :
    readBytes d (xs ++ ys) = (readBytes d ys).map (fun p => (xs ++ p.1, p.2)) := by
  induction xs with
  | nil =>
    cases hy : readBytes d ys <;> simp [hy]
  | cons c cs ih =>
    simp only [List.mem_cons, not_or] at h
    have hcd : ¬c = d := fun hc => h.1 hc.symm
    rw [List.cons_append, readBytes_cons, if_neg hcd, ih h.2]
    cases hy : readBytes d ys <;> simp [hy]

/-- Scanning up to a delimiter placed right after a delimiter-free part
returns that part (with the delimiter) and the remainder. -/
theorem readBytes_token (d : Char) (xs ys : List Char) (h : d ∉ xs) :
    readBytes d (xs ++ d :: ys) = some (xs ++ [d], ys) := by
  rw [readBytes_append_not_mem d xs (d :: ys) h]
  simp [readBytes]

/-- `strings.Split` never produces an empty list of parts. -/
theorem splitOnColon_ne_nil (s : List Char) : splitOnColon s ≠ [] := by
  cases s with
  | nil => simp [splitOnColon]
  | cons c rest =>
    unfold splitOnColon
    by_cases hc : c = ':'
    · simp [hc]
    · simp only [if_neg hc]
      cases h : splitOnColon rest <;> simp

theorem splitOnColon_cons (c : Char) (l : List Char) :
    splitOnColon (c :: l) =
      if c = ':' then [] :: splitOnColon l
      else
        match splitOnColon l with
        | [] => [[c]]
        | p :: ps => (c :: p) :: ps := rfl

/-- A colon-free string splits into itself alone. -/
theorem splitOnColon_no_colon (xs : List Char) (h : ':' ∉ xs) :
    splitOnColon xs = [xs] := by
  induction xs with
  | nil => rfl
  | cons c cs ih =>
    simp only [List.mem_cons, not_or] at h
    have hc : ¬c = ':' := fun hc => h.1 hc.symm
    simp [splitOnColon, if_neg hc, ih h.2]

/-- Splitting at the first colon after a colon-free part yields that part
followed by the split of the remainder. -/
theorem splitOnColon_cross (xs ys : List Char) (h : ':' ∉ xs) :
    splitOnColon (xs ++ ':' :: ys) = xs :: splitOnColon ys := by
  induction xs with
  | nil => simp [splitOnColon]
  | cons c cs ih =>
    simp only [List.mem_cons, not_or] at h
    have hc : ¬c = ':' := fun hc => h.1 hc.symm
    rw [List.cons_append, splitOnColon_cons, if_neg hc, ih h.2]

/-- Every character of a successfully parsed digit string is a digit. -/
theorem digitsToNat?_all_digits (s : List Char) (n : Nat)
    (h : digitsToNat? s = some n) : ∀ c ∈ s, '0' ≤ c ∧ c ≤ '9' := by
  induction s generalizing n with
  | nil => simp [digitsToNat?] at h
  | cons c cs ih =>
    intro x hx
    cases cs with
    | nil =>
      unfold digitsToNat? at h
      split at h
      · simp only [List.mem_singleton] at hx
        subst hx
        assumption
      · exact absurd h (by simp)
    | cons c2 cs2 =>
      unfold digitsToNat? at h
      split at h
      case isTrue hd =>
        rcases Option.map_eq_some'.mp h with ⟨m, hm, _⟩
        rcases List.mem_cons.mp hx with hx0 | hxs
        · subst hx0; exact hd
        · exact ih m hm x hxs
      case isFalse => exact absurd h (by simp)

/-- A successfully parsed digit string is non-empty. -/
theorem digitsToNat?_ne_nil (s : List Char) (n : Nat)
    (h : digitsToNat? s = some n) : s ≠ [] := by
  intro he
  subst he
  simp [digitsToNat?] at h

/-- A digit character is none of the parser's structural characters. -/
theorem digit_char_ne (c : Char) (h0 : '0' ≤ c) (h9 : c ≤ '9') :
    c ≠ ':' ∧ c ≠ '\r' ∧ c ≠ '\n' ∧ c ≠ '-' ∧ c ≠ '+' ∧ c ≠ ' ' := by
  refine ⟨?_, ?_, ?_, ?_, ?_, ?_⟩ <;>
    (intro he; subst he; revert h0 h9; decide)

/-- `strconv.Atoi` agrees with the digit-string value on all-digit input. -/
theorem atoiGo_of_digits (s : List Char) (n : Nat)
    (h : digitsToNat? s = some n) : atoiGo s = (n : Int) := by
  cases s with
  | nil => simp [digitsToNat?] at h
  | cons c rest =>
    have hd := digitsToNat?_all_digits _ n h c (List.mem_cons_self _ _)
    have hne := digit_char_ne c hd.1 hd.2
    unfold atoiGo
    dsimp only
    rw [if_neg hne.2.2.2.1, if_neg hne.2.2.2.2.1, h]

/-- Go map assignment followed by lookup of the same key yields the new
value. -/
theorem mapGet_mapInsert_self {V : Type} (m : List (List Char × V))
    (k : List Char) (v : V) : mapGet (mapInsert m k v) k = some v := by
  induction m with
  | nil => simp [mapInsert, mapGet]
  | cons kv rest ih =>
    obtain ⟨k', v'⟩ := kv
    by_cases hk : k' = k
    · simp [mapInsert, mapGet, hk]
    · simp [mapInsert, mapGet, hk, ih]

/-- The header loop on the blank terminator line `\r\n` ends the headers. -/
theorem parseHeadersF_done (hdrs : List (List Char × List Char)) (fuel : Nat)
    (rest : List Char) :
    parseHeadersF hdrs (fuel + 1) ('\r' :: '\n' :: rest) = .ok (some (hdrs, rest)) := by
  simp [parseHeadersF, readBytes]

theorem parseHeadersF_succ (hdrs : List (List Char × List Char)) (fuel : Nat)
    (s : List Char) :
    parseHeadersF hdrs (fuel + 1) s =
      match readBytes '\n' s with
      | none => .ok none
      | some (bytes, rest) =>
        match bytes with
        | [] => .crash
        | b :: _ =>
          if b = '\r' then .ok (some (hdrs, rest))
          else if b = '\n' then parseHeadersF hdrs fuel rest
          else
            match goSlice bytes 0 (bytes.length - 2) with
            | .crash => .crash
            | .ok header =>
              match splitOnColon header with
              | [] => .crash
              | [_] => .crash
              | k :: v :: _ =>
                match v with
                | [] => .crash
                | _ :: vtail => parseHeadersF (mapInsert hdrs k vtail) fuel rest := rfl

theorem goSlice_strip_crlf (xs : List Char) :
    goSlice (xs ++ ['\r', '\n']) 0 ((xs ++ ['\r', '\n']).length - 2) = .ok xs := by
  unfold goSlice
  rw [if_pos (by simp)]
  simp [List.take_left]

theorem parseHeadersF_line (hdrs : List (List Char × List Char)) (fuel : Nat)
    (k v rest : List Char)
    (hkc : ':' ∉ k) (hkn : '\n' ∉ k) (hkr : '\r' ∉ k) (hk0 : k ≠ [])
    (hvn : '\n' ∉ v) :
    parseHeadersF hdrs (fuel + 1) (k ++ ':' :: v ++ '\r' :: '\n' :: rest) =
      match splitOnColon v with
      | [] => .crash
      | [] :: _ => .crash
      | (_ :: vt) :: _ => parseHeadersF (mapInsert hdrs k vt) fuel rest := by
  obtain ⟨kc, ktl, rfl⟩ : ∃ kc ktl, k = kc :: ktl := by
    cases k with
    | nil => exact absurd rfl hk0
    | cons a b => exact ⟨a, b, rfl⟩
  have hkcr : kc ≠ '\r' := fun he => hkr (he ▸ List.mem_cons_self _ _)
  have hkcn : kc ≠ '\n' := fun he => hkn (he ▸ List.mem_cons_self _ _)
  have hxs : ('\n' : Char) ∉ (kc :: ktl) ++ ':' :: (v ++ ['\r']) := by
    intro hmem
    simp only [List.mem_append, List.mem_cons, List.mem_singleton] at hmem
    rcases hmem with (h1 | h2) | h3 | h4 | h5
    · exact hkcn h1.symm
    · exact hkn (List.mem_cons_of_mem _ h2)
    · exact absurd h3 (by decide)
    · exact hvn h4
    · exact absurd h5 (by decide)
  have hrb' : readBytes '\n' ((kc :: ktl) ++ ':' :: v ++ '\r' :: '\n' :: rest) =
      some (((kc :: ktl) ++ ':' :: v) ++ ['\r', '\n'], rest) := by
    have h0 := readBytes_token '\n' ((kc :: ktl) ++ ':' :: (v ++ ['\r'])) rest hxs
    rw [show ((kc :: ktl) ++ ':' :: (v ++ ['\r'])) ++ '\n' :: rest
        = (kc :: ktl) ++ ':' :: v ++ '\r' :: '\n' :: rest from by simp] at h0
    rw [h0]
    simp
  rw [parseHeadersF_succ, hrb']
  dsimp only [List.cons_append]
  rw [if_neg hkcr, if_neg hkcn]
  have hgs := goSlice_strip_crlf ((kc :: ktl) ++ ':' :: v)
  dsimp only [List.cons_append] at hgs
  rw [hgs]
  dsimp only
  have hsplit := splitOnColon_cross (kc :: ktl) v hkc
  dsimp only [List.cons_append] at hsplit
  rw [hsplit]
  cases hsv : splitOnColon v with
  | nil => rfl
  | cons v0 vrest =>
    cases v0 with
    | nil => rfl
    | cons v01 vt => rfl

/-- A query-free path splits into itself and an empty query string. -/
theorem splitQuery_no_query (p : List Char) (h : '?' ∉ p) : splitQuery p = (p, []) := by
  unfold splitQuery
  have : p.findIdx? (· = '?') = none := by
    rw [List.findIdx?_eq_none_iff]
    intro x hx
    simp only [decide_eq_false_iff_not]
    intro he
    exact h (he ▸ hx)
  rw [this]

/-- Evaluating `ParseRequest` on a well-formed request line followed by an
arbitrary header block: the result is determined by the header loop and the
body stage. -/
theorem ParseRequest_frame (mtok ptok hb : List Char)
    (hm : ' ' ∉ mtok) (hp : ' ' ∉ ptok) (hq : '?' ∉ ptok) :
    ParseRequest (mtok ++ ' ' :: (ptok ++ ' ' :: (str "HTTP/1.1\r" ++ '\n' :: hb))) =
      match parseHeadersF [] (hb.length + 1) hb with
      | .crash => .crash
      | .ok none => .ok none
      | .ok (some (hdrs, s4)) =>
        let clv := (mapGet hdrs (str "Content-Length")).getD []
        if clv = [] then .ok (some ⟨ptok, [], httpMethodsLookup mtok, none, hdrs⟩)
        else
          let bodyLength := atoiGo clv
          if bodyLength < 0 then .crash
          else if s4.length < bodyLength.toNat then .ok none
          else .ok (some ⟨ptok, [], httpMethodsLookup mtok,
            some (s4.take bodyLength.toNat), hdrs⟩) := by
  unfold ParseRequest
  rw [readBytes_token ' ' mtok _ hm]
  dsimp only
  rw [readBytes_token ' ' ptok _ hp]
  dsimp only
  rw [readBytes_token '\n' (str "HTTP/1.1\r") hb (by decide)]
  dsimp only
  rw [List.dropLast_concat, List.dropLast_concat, splitQuery_no_query ptok hq]

/-- A successful delimiter scan strictly shortens the stream. -/
theorem readBytes_some_shorter (d : Char) :
    ∀ (s : List Char) (p : List Char × List Char),
    readBytes d s = some p → p.2.length < s.length := by
  intro s
  induction s with
  | nil => intro p h; simp [readBytes] at h
  | cons c cs ih =>
    intro p h
    rw [readBytes_cons] at h
    by_cases hc : c = d
    · rw [if_pos hc] at h
      cases h
      simp
    · rw [if_neg hc] at h
      rcases Option.map_eq_some'.mp h with ⟨q, hq, hpq⟩
      have := ih q hq
      subst hpq
      simp only [List.length_cons]
      omega

/-- The header loop does not depend on the fuel as long as the fuel exceeds
the stream length (each iteration consumes at least one byte). -/
theorem parseHeadersF_fuel_irrel :
    ∀ (f₁ : Nat) (s : List Char) (hdrs : List (List Char × List Char)) (f₂ : Nat),
    s.length < f₁ → s.length < f₂ →
    parseHeadersF hdrs f₁ s = parseHeadersF hdrs f₂ s := by
  intro f₁
  induction f₁ with
  | zero => intro s hdrs f₂ h1 _; omega
  | succ g ih =>
    intro s hdrs f₂ h1 h2
    obtain ⟨g₂, rfl⟩ : ∃ g₂, f₂ = g₂ + 1 := ⟨f₂ - 1, by omega⟩
    rw [parseHeadersF_succ, parseHeadersF_succ]
    cases hrb : readBytes '\n' s with
    | none => rfl
    | some p =>
      obtain ⟨bytes, rest⟩ := p
      have hlen := readBytes_some_shorter '\n' s (bytes, rest) hrb
      dsimp only at hlen
      cases bytes with
      | nil => rfl
      | cons b btl =>
        dsimp only
        by_cases hbr : b = '\r'
        · rw [if_pos hbr, if_pos hbr]
        · rw [if_neg hbr, if_neg hbr]
          by_cases hbn : b = '\n'
          · rw [if_pos hbn, if_pos hbn]
            exact ih rest hdrs g₂ (by omega) (by omega)
          · rw [if_neg hbn, if_neg hbn]
            cases goSlice (b :: btl) 0 ((b :: btl).length - 2) with
            | crash => rfl
            | ok header =>
              dsimp only
              cases splitOnColon header with
              | nil => rfl
              | cons k0 ps =>
                cases ps with
                | nil => rfl
                | cons v0 ps' =>
                  cases v0 with
                  | nil => rfl
                  | cons v01 vt =>
                    exact ih rest (mapInsert hdrs k0 vt) g₂ (by omega) (by omega)

/-- The header-line step with fuel normalised: any sufficient fuel processes
one `Key: value` line and continues with fuel `rest.length + 1`. -/
theorem parseHeadersF_line' (hdrs : List (List Char × List Char)) (fuel : Nat)
    (k v rest : List Char)
    (hkc : ':' ∉ k) (hkn : '\n' ∉ k) (hkr : '\r' ∉ k) (hk0 : k ≠ [])
    (hvn : '\n' ∉ v)
    (hfuel : (k ++ ':' :: v ++ '\r' :: '\n' :: rest).length < fuel) :
    parseHeadersF hdrs fuel (k ++ ':' :: v ++ '\r' :: '\n' :: rest) =
      match splitOnColon v with
      | [] => .crash
      | [] :: _ => .crash
      | (_ :: vt) :: _ => parseHeadersF (mapInsert hdrs k vt) (rest.length + 1) rest := by
  rw [parseHeadersF_fuel_irrel fuel _ hdrs
    ((k ++ ':' :: v ++ '\r' :: '\n' :: rest).length + 1) hfuel (by omega)]
  rw [parseHeadersF_line hdrs _ k v rest hkc hkn hkr hk0 hvn]
  cases hsv : splitOnColon v with
  | nil => rfl
  | cons v0 ps =>
    cases v0 with
    | nil => rfl
    | cons v01 vt =>
      dsimp only
      exact parseHeadersF_fuel_irrel _ rest (mapInsert hdrs k vt) (rest.length + 1)
        (by simp; omega) (by omega)

/-- The header loop on the terminator line, for any positive fuel. -/
theorem parseHeadersF_done' (hdrs : List (List Char × List Char)) (fuel : Nat)
    (rest : List Char) (hfuel : 0 < fuel) :
    parseHeadersF hdrs fuel ('\r' :: '\n' :: rest) = .ok (some (hdrs, rest)) := by
  obtain ⟨f, rfl⟩ : ∃ f, fuel = f + 1 := ⟨fuel - 1, by omega⟩
  exact parseHeadersF_done hdrs f rest

/-- Slicing below the length of the left part of an append ignores the right
part. -/
theorem sliceIn_append (p q : List Char) (a b : Nat) (hb : b ≤ p.length) :
    sliceIn (p ++ q) a b = sliceIn p a b := by
  unfold sliceIn
  by_cases hab : b ≤ a
  · have : b - a = 0 := by omega
    simp [this]
  · have ha : a ≤ p.length := by omega
    rw [List.drop_append_of_le_length ha,
      List.take_append_of_le_length (by rw [List.length_drop]; omega)]

/-- Running the scan loop on `p ++ q` decomposes: first run it over `p`
(both runs slice identically below `p.length`), then continue over `q` from
index `p.length`. -/
theorem pathLoop_append (q : List Char) :
    ∀ (suf p : List Char) (e start : Nat) (route : List (List Char)),
    e + suf.length = p.length → start ≤ e →
    pathLoop (p ++ q) (suf ++ q) e start route =
      pathLoop (p ++ q) q p.length (pathLoop p suf e start route).2
        (pathLoop p suf e start route).1 := by
  intro suf
  induction suf with
  | nil =>
    intro p e start route he _
    simp only [List.length_nil, Nat.add_zero] at he
    subst he
    simp [pathLoop]
  | cons c suf ih =>
    intro p e start route he hs
    have hep : e < p.length := by simp at he; omega
    by_cases hc : c = '/'
    · subst hc
      rw [List.cons_append]
      simp only [pathLoop, if_pos rfl]
      rw [sliceIn_append p q start e (le_of_lt hep)]
      exact ih p (e + 1) (e + 1) (route ++ [sliceIn p start e])
        (by simp at he ⊢; omega) (le_refl _)
    · rw [List.cons_append]
      simp only [pathLoop, if_neg hc]
      exact ih p (e + 1) start route (by simp at he ⊢; omega) (by omega)

/-- The `start` index produced by the scan loop is either still 1 or one past
a `'/'` of `p` (in particular it is at most `p.length`). -/
theorem pathLoop_start_spec :
    ∀ (suf p : List Char) (e start : Nat) (route : List (List Char)),
    e + suf.length = p.length →
    (start = 1 ∨ (0 < start ∧ start ≤ p.length ∧ p[start - 1]? = some '/')) →
    suf = p.drop e →
    ((pathLoop p suf e start route).2 = 1 ∨
     (0 < (pathLoop p suf e start route).2 ∧
      (pathLoop p suf e start route).2 ≤ p.length ∧
      p[(pathLoop p suf e start route).2 - 1]? = some '/')) := by
  intro suf
  induction suf with
  | nil =>
    intro p e start route _ hstart _
    simpa [pathLoop] using hstart
  | cons c suf ih =>
    intro p e start route he hstart hsuf
    have hep : e < p.length := by simp at he; omega
    have hpe : p[e]? = some c := by
      have h0 : (p.drop e)[0]? = p[e + 0]? := List.getElem?_drop p e 0
      rw [← hsuf] at h0
      simpa using h0.symm
    have hsuf' : suf = p.drop (e + 1) := by
      have h1 : List.drop 1 (p.drop e) = p.drop (e + 1) := List.drop_drop 1 e p
      rw [← hsuf] at h1
      simpa using h1
    by_cases hc : c = '/'
    · subst hc
      simp only [pathLoop, if_pos rfl]
      exact ih p (e + 1) (e + 1) (route ++ [sliceIn p start e])
        (by simp at he ⊢; omega)
        (Or.inr ⟨Nat.succ_pos e, by omega, by simpa using hpe⟩) hsuf'
    · simp only [pathLoop, if_neg hc]
      exact ih p (e + 1) start route (by simp at he ⊢; omega) hstart hsuf'

/-- C8 (confirmed): for a non-empty multi-segment path that does not already
end in `'/'`, appending a trailing `'/'` changes neither the component list
produced by `PathListFromString` nor the result of `FindPath` on any route
table: `/users/42/` and `/users/42` resolve identically. -/
theorem c8_trailing_slash_equivalent (p : List Char) (hp : p ≠ [])
    (hlast : p.getLast? ≠ some '/') (hms : '/' ∈ p.drop 1) :
    PathListFromString (p ++ ['/']) = PathListFromString p ∧
    ∀ routes, FindPath routes (p ++ ['/']) = FindPath routes p := by
  have hlen : 1 ≤ p.length := by
    cases p
    · exact absurd rfl hp
    · simp
  have hdroplen : 1 + (p.drop 1).length = p.length := by
    rw [List.length_drop]; omega
  -- the scan over `p` alone
  have hspec := pathLoop_start_spec (p.drop 1) p 1 1 [] hdroplen (Or.inl rfl) rfl
  set r := (pathLoop p (p.drop 1) 1 1 []).1 with hr
  set s := (pathLoop p (p.drop 1) 1 1 []).2 with hs
  have hsle : s ≤ p.length := by
    rcases hspec with h1 | ⟨_, hle, _⟩
    · omega
    · exact hle
  have hcond : s ≠ p.length ∨ s = 1 := by
    by_cases hs1 : s = 1
    · exact Or.inr hs1
    · left
      intro hslen
      rcases hspec with h1 | ⟨_, _, hslash⟩
      · exact hs1 h1
      · rw [hslen] at hslash
        exact hlast (by rw [List.getLast?_eq_getElem? p]; exact hslash)
  -- the scan over `p ++ ['/']`
  have hdrop : (p ++ ['/']).drop 1 = p.drop 1 ++ ['/'] :=
    List.drop_append_of_le_length hlen
  have happ := pathLoop_append ['/'] (p.drop 1) p 1 1 [] hdroplen (le_refl 1)
  have hloop2 : pathLoop (p ++ ['/']) ((p ++ ['/']).drop 1) 1 1 [] =
      (r ++ [sliceIn p s p.length], p.length + 1) := by
    rw [hdrop, happ, ← hr, ← hs]
    simp [pathLoop, sliceIn_append p ['/'] s p.length (le_refl _)]
  have hplfs : PathListFromString (p ++ ['/']) = PathListFromString p := by
    unfold PathListFromString
    dsimp only
    rw [hloop2, ← hr, ← hs]
    have hlen2 : (p ++ ['/']).length = p.length + 1 := by simp
    rw [hlen2]
    dsimp only
    rw [if_neg (by omega)]
    rw [if_pos hcond]
    unfold goSlice
    rw [if_pos ⟨hsle, le_refl _⟩]
    rfl
  refine ⟨hplfs, fun routes => ?_⟩
  unfold FindPath
  rw [hplfs]

/-- Witness for `c8_trailing_slash_equivalent` at `/users/42`. -/
theorem c8_trailing_slash_equivalent_witness :
    PathListFromString (str "/users/42" ++ ['/']) =
      PathListFromString (str "/users/42") ∧
    ∀ routes, FindPath routes (str "/users/42" ++ ['/']) =
      FindPath routes (str "/users/42") :=
  c8_trailing_slash_equivalent (str "/users/42") (by decide) (by decide) (by decide)

/-- When the entry at index `k` of the evaluated middleware list is the first
non-nil one, the loop stops there with `k + 1` middleware invoked. -/
theorem runMw_first_some (req : HttpRequest)
    (mws : List (HttpRequest → Option HttpResponse)) (k : Nat) (r : HttpResponse)
    (hk : (mws.map (fun mw => mw req))[k]? = some (some r))
    (hbefore : ∀ j, j < k → (mws.map (fun mw => mw req))[j]? = some none) :
    runMw req mws = (k + 1, some r) := by
  induction mws generalizing k with
  | nil => simp at hk
  | cons mw rest ih =>
    cases k with
    | zero =>
      simp only [List.map_cons, List.getElem?_cons_zero, Option.some.injEq] at hk
      simp [runMw, hk]
    | succ j =>
      have h0 := hbefore 0 (Nat.succ_pos j)
      simp only [List.map_cons, List.getElem?_cons_zero, Option.some.injEq] at h0
      have hrest := ih j (by simpa using hk)
        (fun i hi => by simpa using hbefore (i + 1) (by omega))
      simp [runMw, h0, hrest]

/-- When every middleware evaluates to nil, the loop invokes all of them and
reports no short-circuit. -/
theorem runMw_all_none (req : HttpRequest)
    (mws : List (HttpRequest → Option HttpResponse))
    (hall : ∀ mw ∈ mws, mw req = none) :
    runMw req mws = (mws.length, none) := by
  induction mws with
  | nil => rfl
  | cons mw rest ih =>
    have h0 : mw req = none := hall mw (List.mem_cons_self mw rest)
    have hrest := ih (fun m hm => hall m (List.mem_cons_of_mem mw hm))
    simp [runMw, h0, hrest]

/-- C7 (confirmed): in the middleware stage, the first middleware returning a
non-nil response short-circuits: that response (CORS-decorated) is the one
written, exactly `k + 1` middleware ran and the handler did not; when every
middleware returns nil, the handler runs after all of them; and this stage is
exactly what the worker executes once a route and a method binding are
found. -/
theorem c7_middleware_short_circuit (cfg : CorsCfg) (h : RouteHandlerB)
    (req : HttpRequest) :
    (∀ k r, (h.middleware.map (fun mw => mw req))[k]? = some (some r) →
      (∀ j, j < k → (h.middleware.map (fun mw => mw req))[j]? = some none) →
      runChain cfg h req = ⟨some (ApplyCors cfg r), k + 1, false⟩) ∧
    ((∀ mw ∈ h.middleware, mw req = none) →
      (runChain cfg h req).handlerRan = true ∧
      (runChain cfg h req).middlewareRan = h.middleware.length) ∧
    (∀ routes route', req.method ≠ str "OPTIONS" →
      FindPath routes req.path = .ok (some route') →
      mapGet route'.handlers req.method = some h →
      handleParsed cfg routes req = .ok (runChain cfg h req)) := by
  refine ⟨?_, ?_, ?_⟩
  · intro k r hk hb
    unfold runChain
    rw [runMw_first_some req h.middleware k r hk hb]
  · intro hall
    unfold runChain
    rw [runMw_all_none req h.middleware hall]
    cases hh : h.handler req <;> simp [hh]
  · intro routes route' hopt hfind hget
    unfold handleParsed
    simp only [if_neg hopt, hfind, hget]

/-- Witness for `c7_middleware_short_circuit`: a chain whose second
middleware rejects (the third never runs, nor the handler), and a chain of
one passing middleware whose handler runs. -/
theorem c7_middleware_short_circuit_witness :
    runChain defaultCors
      ⟨fun _ => some ⟨201, [], []⟩,
       [fun _ => none, fun _ => some ⟨403, [], []⟩, fun _ => some ⟨401, [], []⟩]⟩
      reqGetX = ⟨some (ApplyCors defaultCors ⟨403, [], []⟩), 2, false⟩ ∧
    ((runChain defaultCors ⟨fun _ => some ⟨201, [], []⟩, [fun _ => none]⟩
        reqGetX).handlerRan = true ∧
     (runChain defaultCors ⟨fun _ => some ⟨201, [], []⟩, [fun _ => none]⟩
        reqGetX).middlewareRan = 1) :=
  ⟨(c7_middleware_short_circuit defaultCors _ reqGetX).1 1 _ rfl
      (by intro j hj; have hj0 : j = 0 := Nat.lt_one_iff.mp hj; subst hj0; rfl),
   (c7_middleware_short_circuit defaultCors _ reqGetX).2.1
      (by intro mw hmw; rw [List.mem_singleton] at hmw; subst hmw; rfl)⟩

/-- Witness for `c9_options_short_circuits`: `OPTIONS /anything` against the
default configuration and an empty route table. -/
theorem c9_options_short_circuits_witness :
    handleParsed defaultCors [] ⟨str "/anything", [], str "OPTIONS", none, []⟩ =
      .ok ⟨some ⟨200, [(str "Access-Control-Allow-Origin", defaultCors.origin),
                       (str "Access-Control-Allow-Headers", defaultCors.headers),
                       (str "Access-Control-Allow-Methods", defaultCors.methods)], []⟩,
           0, false⟩ ∧
    handleParsed defaultCors [] ⟨str "/anything", [], str "OPTIONS", none, []⟩ =
      handleParsed defaultCors [] ⟨str "/anything", [], str "OPTIONS", none, []⟩ :=
  c9_options_short_circuits defaultCors [] [] _ rfl

/-- C3 (amended): an unrecognized method token does not fail the parse.
`HttpMethods[token]` yields the zero value `""` for tokens outside the closed
set, and `ParseRequest` carries on, returning a request whose method is the
empty string (such requests later 404 at dispatch, since no handler is keyed
by the empty method). -/
theorem c3_unknown_method_still_parses (m : List Char)
    (hsp : ' ' ∉ m)
    (hnot : m ∉ [str "GET", str "POST", str "PUT", str "PATCH", str "DELETE",
      str "OPTIONS", str "NONE"]) :
    ParseRequest (c3Input m) = .ok (some ⟨str "/", [], [], none, []⟩) := by
  have hshape : c3Input m
      = m ++ ' ' :: (str "/" ++ ' ' :: (str "HTTP/1.1\r" ++ '\n' :: str "\r\n")) := rfl
  rw [hshape, ParseRequest_frame m (str "/") (str "\r\n") hsp (by decide) (by decide)]
  have hl : httpMethodsLookup m = [] := by
    unfold httpMethodsLookup
    rw [if_neg]
    simpa using hnot
  rw [hl]
  decide

/-- C4 (amended): the header line is split with `strings.Split` on EVERY
colon and only `split[1]` — the text between the first and second colon — is
kept, with its first character (the space of a well-formed line) removed; so
a colon-free value is stored in full minus its leading space, a value
containing a colon is truncated at it, and when the same key occurs on two
lines the later line's value overwrites the earlier one. -/
theorem c4_header_amended (k v₁ v₂ a b : List Char)
    (hkc : ':' ∉ k) (hkn : '\n' ∉ k) (hkr : '\r' ∉ k) (hk0 : k ≠ [])
    (hkcl : k ≠ str "Content-Length")
    (hv₁c : ':' ∉ v₁) (hv₁n : '\n' ∉ v₁)
    (hv₂c : ':' ∉ v₂) (hv₂n : '\n' ∉ v₂)
    (hac : ':' ∉ a) (han : '\n' ∉ a)
    (hbn : '\n' ∉ b) :
    ParseRequest (c4TwoLines k v₁ v₂) =
      .ok (some ⟨str "/", [], str "GET", none, [(k, v₂)]⟩) ∧
    ParseRequest (c4ColonLine k a b) =
      .ok (some ⟨str "/", [], str "GET", none, [(k, a)]⟩) := by
  constructor
  · have hshape : c4TwoLines k v₁ v₂
        = str "GET" ++ ' ' :: (str "/" ++ ' ' :: (str "HTTP/1.1\r" ++ '\n' ::
          (k ++ ':' :: (' ' :: v₁) ++ '\r' :: '\n' ::
            (k ++ ':' :: (' ' :: v₂) ++ '\r' :: '\n' :: ('\r' :: '\n' :: ([] : List Char)))))) := by
      simp only [c4TwoLines, str, List.append_assoc, List.cons_append]
      rfl
    rw [hshape,
      ParseRequest_frame (str "GET") (str "/") _ (by decide) (by decide) (by decide)]
    rw [parseHeadersF_line' [] _ k (' ' :: v₁) _ hkc hkn hkr hk0 (by simp [hv₁n]) (by omega)]
    rw [splitOnColon_no_colon (' ' :: v₁) (by simp [hv₁c])]
    dsimp only
    rw [parseHeadersF_line' (mapInsert [] k v₁) _ k (' ' :: v₂) _ hkc hkn hkr hk0
      (by simp [hv₂n]) (by omega)]
    rw [splitOnColon_no_colon (' ' :: v₂) (by simp [hv₂c])]
    dsimp only
    rw [parseHeadersF_done' (mapInsert (mapInsert [] k v₁) k v₂) _ [] (by omega)]
    dsimp only
    have hins : mapInsert (mapInsert [] k v₁) k v₂ = [(k, v₂)] := by
      simp [mapInsert]
    rw [hins]
    have hget : mapGet [(k, v₂)] (str "Content-Length") = none := by
      simp [mapGet, hkcl]
    rw [hget]
    have hlook : httpMethodsLookup (str "GET") = str "GET" := by decide
    simp [hlook]
  · have hshape : c4ColonLine k a b
        = str "GET" ++ ' ' :: (str "/" ++ ' ' :: (str "HTTP/1.1\r" ++ '\n' ::
          (k ++ ':' :: ((' ' :: a) ++ ':' :: b) ++ '\r' :: '\n' ::
            ('\r' :: '\n' :: ([] : List Char))))) := by
      simp only [c4ColonLine, str, List.append_assoc, List.cons_append]
      rfl
    rw [hshape,
      ParseRequest_frame (str "GET") (str "/") _ (by decide) (by decide) (by decide)]
    rw [parseHeadersF_line' [] _ k ((' ' :: a) ++ ':' :: b) _ hkc hkn hkr hk0
      (by simp [han, hbn]) (by omega)]
    rw [splitOnColon_cross (' ' :: a) b (by simp [hac])]
    dsimp only
    rw [parseHeadersF_done' (mapInsert [] k a) _ [] (by omega)]
    dsimp only
    have hget : mapGet (mapInsert [] k a) (str "Content-Length") = none := by
      simp [mapInsert, mapGet, hkcl]
    rw [hget]
    have hlook : httpMethodsLookup (str "GET") = str "GET" := by decide
    simp [hlook, mapInsert]

/-- C6 (confirmed): when `Content-Length` parses as the non-negative integer
`n` and fewer than `n` body bytes arrive before the connection ends,
`ParseRequest` returns nil and the worker closes the connection with no
response written; when at least `n` bytes arrive, the body handed to the
handler is exactly the first `n` of them. -/
theorem c6_content_length_honored (s body : List Char) (n : Nat)
    (hdig : digitsToNat? s = some n) :
    (body.length < n → ∀ cfg routes,
      handleConn cfg routes (c6Input s body) = .ok ⟨none, 0, false⟩) ∧
    (n ≤ body.length →
      ParseRequest (c6Input s body) =
        .ok (some ⟨str "/x", [], str "POST", some (body.take n),
          [(str "Content-Length", s)]⟩) ∧
      (body.take n).length = n) := by
  have hall := digitsToNat?_all_digits s n hdig
  have hsNoColon : ':' ∉ s :=
    fun hm => (digit_char_ne ':' (hall ':' hm).1 (hall ':' hm).2).1 rfl
  have hsNoNl : '\n' ∉ s :=
    fun hm => (digit_char_ne '\n' (hall '\n' hm).1 (hall '\n' hm).2).2.2.1 rfl
  have hsNe : ¬(s = []) := digitsToNat?_ne_nil s n hdig
  have hparse : ParseRequest (c6Input s body) =
      if body.length < n then .ok none
      else .ok (some ⟨str "/x", [], str "POST", some (body.take n),
        [(str "Content-Length", s)]⟩) := by
    have hshape : c6Input s body
        = str "POST" ++ ' ' :: (str "/x" ++ ' ' :: (str "HTTP/1.1\r" ++ '\n' ::
            (str "Content-Length" ++ ':' :: (' ' :: s) ++ '\r' :: '\n' ::
              ('\r' :: '\n' :: body)))) := by
      simp only [c6Input, str, List.append_assoc, List.cons_append]
      rfl
    rw [hshape,
      ParseRequest_frame (str "POST") (str "/x") _ (by decide) (by decide) (by decide)]
    rw [parseHeadersF_line' [] _ (str "Content-Length") (' ' :: s) _
      (by decide) (by decide) (by decide) (by decide) (by simp [hsNoNl]) (by omega)]
    rw [splitOnColon_no_colon (' ' :: s) (by simp [hsNoColon])]
    dsimp only
    rw [parseHeadersF_done' (mapInsert [] (str "Content-Length") s) _ body (by omega)]
    dsimp only
    rw [show mapGet (mapInsert [] (str "Content-Length") s) (str "Content-Length")
        = some s from by simp [mapInsert, mapGet]]
    rw [show (some s).getD ([] : List Char) = s from rfl]
    rw [if_neg hsNe]
    rw [atoiGo_of_digits s n hdig]
    rw [if_neg (by simp)]
    rw [show ((n : Int)).toNat = n from Int.toNat_natCast n]
    have hlook : httpMethodsLookup (str "POST") = str "POST" := by decide
    rw [hlook]
    rfl
  constructor
  · intro hlt cfg routes
    unfold handleConn
    rw [hparse, if_pos hlt]
  · intro hge
    refine ⟨?_, ?_⟩
    · rw [hparse, if_neg (by omega)]
    · rw [List.length_take]
      omega

/-- Counterexample to C3 as stated: the unknown token `FOO` does not make
`ParseRequest` return nil — the parse succeeds with the empty method. -/
theorem c3_counterexample_foo_parses :
    ParseRequest (c3Input (str "FOO")) = .ok (some ⟨str "/", [], [], none, []⟩) ∧
    ParseRequest (c3Input (str "FOO")) ≠ .ok none :=
  ⟨by decide, by decide⟩

/-- Witness for `c3_unknown_method_still_parses` at the token `FOO`. -/
theorem c3_unknown_method_still_parses_witness :
    ParseRequest (c3Input (str "FOO")) = .ok (some ⟨str "/", [], [], none, []⟩) :=
  c3_unknown_method_still_parses (str "FOO") (by decide) (by decide)

/-- Counterexample to C4 as stated: the well-formed header line
`Host: example.com:8080` is not stored in full — the value is truncated at
its colon to `example.com`. -/
theorem c4_counterexample_colon_value_truncated :
    ParseRequest (str "GET / HTTP/1.1\r\nHost: example.com:8080\r\n\r\n") =
      .ok (some ⟨str "/", [], str "GET", none, [(str "Host", str "example.com")]⟩) ∧
    mapGet [(str "Host", str "example.com")] (str "Host") ≠ some (str "example.com:8080") :=
  ⟨by decide, by decide⟩

/-- Witness for `c4_header_amended`: duplicate `Host` headers keep the later
value, and `X: example.com:8080` stores `example.com`. -/
theorem c4_header_amended_witness :
    ParseRequest (c4TwoLines (str "Host") (str "a") (str "b")) =
      .ok (some ⟨str "/", [], str "GET", none, [(str "Host", str "b")]⟩) ∧
    ParseRequest (c4ColonLine (str "Host") (str "example.com") (str "8080")) =
      .ok (some ⟨str "/", [], str "GET", none, [(str "Host", str "example.com")]⟩) :=
  ⟨(c4_header_amended (str "Host") (str "a") (str "b") (str "example.com") (str "8080")
      (by decide) (by decide) (by decide) (by decide) (by decide) (by decide) (by decide)
      (by decide) (by decide) (by decide) (by decide) (by decide)).1,
   (c4_header_amended (str "Host") (str "a") (str "b") (str "example.com") (str "8080")
      (by decide) (by decide) (by decide) (by decide) (by decide) (by decide) (by decide)
      (by decide) (by decide) (by decide) (by decide) (by decide)).2⟩

/-- Witness for `c6_content_length_honored`: `Content-Length: 10` with only
3 body bytes is dropped with no response; `Content-Length: 3` with 5 bytes
available delivers exactly `abc`. -/
theorem c6_content_length_honored_witness :
    handleConn defaultCors [] (c6Input (str "10") (str "abc")) = .ok ⟨none, 0, false⟩ ∧
    ParseRequest (c6Input (str "3") (str "abcde")) =
      .ok (some ⟨str "/x", [], str "POST", some ((str "abcde").take 3),
        [(str "Content-Length", str "3")]⟩) :=
  ⟨(c6_content_length_honored (str "10") (str "abc") 10 (by decide)).1 (by decide)
      defaultCors [],
   ((c6_content_length_honored (str "3") (str "abcde") 3 (by decide)).2 (by decide)).1⟩

end Pilot
